import Mathlib

/-!
Verification of the PCM audio visualizer core: the quantizer
(quantizeValue, getQuantizationError, formatBinary from audioUtils),
the sampling/decimation planner and the renderer sampling layer of
WaveformCanvas, and the encoding preview table of App.
JavaScript numbers are modelled as exact rationals; Math.round is
round-half-toward-positive-infinity, that is floor of x + 1/2, and
Math.floor is the rational floor.
-/

/-- JavaScript Math.round: rounds half toward positive infinity. -/
def jsRound (q : ℚ) : ℤ := ⌊q + 1/2⌋

/-- Clamp to the unit interval, as Math.max(0, Math.min(1, x)). -/
def clamp01 (q : ℚ) : ℚ := max 0 (min 1 q)

/-- quantizeValue from audioUtils: pass bitDepth at or above 32 through,
otherwise normalize the amplitude from the interval from -1 to 1 into the
unit interval, clamp, round onto levels - 1 steps, and rescale back. -/
def quantizeValue (value : ℚ) (bitDepth : ℕ) : ℚ :=
  if 32 ≤ bitDepth then value
  else
    let levels : ℚ := 2 ^ bitDepth
    let maxVal : ℚ := levels - 1
    let normalized : ℚ := clamp01 ((value + 1) / 2)
    let discrete : ℤ := jsRound (normalized * maxVal)
    let quantizedNorm : ℚ := (discrete : ℚ) / maxVal
    quantizedNorm * 2 - 1

/-- getQuantizationError from audioUtils: Math.abs(original - quantized). -/
def getQuantizationError (original quantized : ℚ) : ℚ :=
  |original - quantized|

/-- Base-2 digit list of a natural number, most significant digit first,
as produced by JavaScript Number.prototype.toString with radix 2.
Structural recursion on an explicit fuel argument. -/
def binDigitsGo : ℕ → ℕ → List Char
  | 0, _ => []
  | fuel + 1, n =>
    if n < 2 then [if n = 1 then '1' else '0']
    else binDigitsGo fuel (n / 2) ++ [if n % 2 = 1 then '1' else '0']

/-- The base-2 string of a natural number. -/
def binDigits (n : ℕ) : List Char := binDigitsGo (n + 1) n

/-- String.prototype.padStart: pad on the left with the given character
up to the requested width. -/
def padStart (l : List Char) (width : ℕ) (c : Char) : List Char :=
  List.replicate (width - l.length) c ++ l

/-- formatBinary from audioUtils: the same normalize, clamp, round
pipeline as quantizeValue, rendered as a zero-padded base-2 string. -/
def formatBinary (value : ℚ) (bitDepth : ℕ) : List Char :=
  let levels : ℚ := 2 ^ bitDepth
  let maxVal : ℚ := levels - 1
  let normalized : ℚ := clamp01 ((value + 1) / 2)
  let discrete : ℤ := jsRound (normalized * maxVal)
  padStart (binDigits discrete.toNat) bitDepth '0'

/-- Decode a base-2 character string back to a natural number. -/
def decodeBin (l : List Char) : ℕ :=
  l.foldl (fun acc c => 2 * acc + (if c = '1' then 1 else 0)) 0

/-- The k-th quantization level at a given bit depth: k over maxVal,
rescaled from the unit interval to the interval from -1 to 1. -/
def quantLevel (bitDepth k : ℕ) : ℚ :=
  ((k : ℚ) / (2 ^ bitDepth - 1)) * 2 - 1

section QuantizerLemmas

lemma clamp01_nonneg (q : ℚ) : 0 ≤ clamp01 q := le_max_left 0 _

lemma clamp01_le_one (q : ℚ) : clamp01 q ≤ 1 :=
  max_le (by norm_num) (min_le_left 1 q)

lemma clamp01_eq_of (q : ℚ) (h0 : 0 ≤ q) (h1 : q ≤ 1) : clamp01 q = q := by
  unfold clamp01
  rw [min_eq_right h1, max_eq_right h0]

lemma clamp01_of_nonpos (q : ℚ) (h : q ≤ 0) : clamp01 q = 0 := by
  unfold clamp01
  rw [max_eq_left]
  exact le_trans (min_le_right 1 q) h

lemma clamp01_of_one_le (q : ℚ) (h : 1 ≤ q) : clamp01 q = 1 := by
  unfold clamp01
  rw [min_eq_left h]
  norm_num

lemma clamp01_mono {p q : ℚ} (h : p ≤ q) : clamp01 p ≤ clamp01 q :=
  max_le_max le_rfl (min_le_min le_rfl h)

lemma jsRound_nonneg (q : ℚ) (h : 0 ≤ q) : 0 ≤ jsRound q :=
  Int.floor_nonneg.mpr (by linarith)

lemma jsRound_le_of (q : ℚ) (M : ℤ) (h : q ≤ (M : ℚ)) : jsRound q ≤ M := by
  have h1 : (jsRound q : ℚ) ≤ q + 1/2 := Int.floor_le _
  have h2 : (jsRound q : ℚ) < (M : ℚ) + 1 := by linarith
  exact_mod_cast Int.lt_add_one_iff.mp (by exact_mod_cast h2)

lemma jsRound_abs_sub_le (q : ℚ) : |(jsRound q : ℚ) - q| ≤ 1/2 := by
  have h1 : (jsRound q : ℚ) ≤ q + 1/2 := Int.floor_le _
  have h2 : q + 1/2 < (jsRound q : ℚ) + 1 := Int.lt_floor_add_one _
  rw [abs_le]
  constructor <;> linarith

lemma jsRound_mono {p q : ℚ} (h : p ≤ q) : jsRound p ≤ jsRound q :=
  Int.floor_le_floor (by linarith)

lemma jsRound_intCast (z : ℤ) : jsRound (z : ℚ) = z := by
  unfold jsRound
  rw [add_comm, Int.floor_add_int, Int.floor_eq_zero_iff.mpr]
  · ring
  · constructor <;> norm_num

lemma jsRound_natCast (k : ℕ) : jsRound (k : ℚ) = (k : ℤ) := by
  have h := jsRound_intCast (k : ℤ)
  rw [← h]
  norm_num

lemma two_le_two_pow (b : ℕ) (hb : 1 ≤ b) : (2 : ℚ) ≤ 2 ^ b := by
  calc (2 : ℚ) = 2 ^ 1 := (pow_one 2).symm
  _ ≤ 2 ^ b := pow_le_pow_right₀ (by norm_num) hb

lemma maxVal_pos (b : ℕ) (hb : 1 ≤ b) : (0 : ℚ) < 2 ^ b - 1 := by
  have h := two_le_two_pow b hb
  linarith

lemma maxVal_nonneg (b : ℕ) : (0 : ℚ) ≤ 2 ^ b - 1 := by
  have h : (1 : ℚ) ≤ 2 ^ b := one_le_pow₀ (by norm_num)
  linarith

/-- Unfolding of quantizeValue below the bit-depth ceiling. -/
lemma quantizeValue_eq (a : ℚ) (b : ℕ) (hb : b ≤ 31) :
    quantizeValue a b =
      ((jsRound (clamp01 ((a + 1) / 2) * (2 ^ b - 1)) : ℚ) / (2 ^ b - 1)) * 2 - 1 := by
  unfold quantizeValue
  rw [if_neg (by omega)]

/-- The rounded code of any input lies between 0 and maxVal. -/
lemma quantize_discrete_bounds (a : ℚ) (b : ℕ) :
    0 ≤ jsRound (clamp01 ((a + 1) / 2) * (2 ^ b - 1)) ∧
      jsRound (clamp01 ((a + 1) / 2) * (2 ^ b - 1)) ≤ (2 : ℤ) ^ b - 1 := by
  have hm : (0 : ℚ) ≤ 2 ^ b - 1 := maxVal_nonneg b
  constructor
  · exact jsRound_nonneg _ (mul_nonneg (clamp01_nonneg _) hm)
  · apply jsRound_le_of
    have hle : clamp01 ((a + 1) / 2) * (2 ^ b - 1) ≤ 2 ^ b - 1 :=
      mul_le_of_le_one_left hm (clamp01_le_one _)
    calc clamp01 ((a + 1) / 2) * (2 ^ b - 1) ≤ (2 : ℚ) ^ b - 1 := hle
    _ = (((2 : ℤ) ^ b - 1 : ℤ) : ℚ) := by push_cast; ring

/-- Every quantizer output below the ceiling is one of the 2 ^ bitDepth levels. -/
lemma quantizeValue_level (a : ℚ) (b : ℕ) (hb2 : b ≤ 31) :
    ∃ k : ℕ, k < 2 ^ b ∧ quantizeValue a b = quantLevel b k := by
  obtain ⟨h0, h1⟩ := quantize_discrete_bounds a b
  refine ⟨(jsRound (clamp01 ((a + 1) / 2) * (2 ^ b - 1))).toNat, ?_, ?_⟩
  · have hc : ((2 : ℤ)) ^ b = ((2 ^ b : ℕ) : ℤ) := by push_cast; ring
    omega
  · rw [quantizeValue_eq a b hb2]
    unfold quantLevel
    have hcast :
        (((jsRound (clamp01 ((a + 1) / 2) * (2 ^ b - 1))).toNat : ℚ)) =
          ((jsRound (clamp01 ((a + 1) / 2) * (2 ^ b - 1)) : ℤ) : ℚ) := by
      exact_mod_cast congrArg (fun z : ℤ => (z : ℚ)) (Int.toNat_of_nonneg h0)
    rw [hcast]

lemma quantLevel_mem (b k : ℕ) (hb1 : 1 ≤ b) (hk : k < 2 ^ b) :
    -1 ≤ quantLevel b k ∧ quantLevel b k ≤ 1 := by
  have hm : (0 : ℚ) < 2 ^ b - 1 := maxVal_pos b hb1
  have hku : (k : ℚ) ≤ 2 ^ b - 1 := by
    have : (k : ℚ) + 1 ≤ 2 ^ b := by exact_mod_cast Nat.succ_le_of_lt hk
    linarith
  have h0 : (0 : ℚ) ≤ (k : ℚ) / (2 ^ b - 1) := by positivity
  have h1 : (k : ℚ) / (2 ^ b - 1) ≤ 1 := (div_le_one hm).mpr hku
  unfold quantLevel
  constructor <;> linarith

end QuantizerLemmas

section BinaryDecode

lemma decodeBin_foldl (l : List Char) (acc : ℕ) :
    l.foldl (fun acc c => 2 * acc + (if c = '1' then 1 else 0)) acc =
      acc * 2 ^ l.length + decodeBin l := by
  induction l generalizing acc with
  | nil => simp [decodeBin]
  | cons c t ih =>
    simp only [List.foldl_cons]
    rw [ih]
    have h2 : decodeBin (c :: t) =
        (2 * 0 + (if c = '1' then 1 else 0)) * 2 ^ t.length + decodeBin t := by
      unfold decodeBin
      simp only [List.foldl_cons]
      rw [ih]
      rfl
    rw [h2]
    simp only [List.length_cons]
    ring

lemma decodeBin_append (l1 l2 : List Char) :
    decodeBin (l1 ++ l2) = decodeBin l1 * 2 ^ l2.length + decodeBin l2 := by
  unfold decodeBin
  rw [List.foldl_append]
  exact decodeBin_foldl l2 _

lemma decodeBin_replicate_zero (k : ℕ) (l : List Char) :
    decodeBin (List.replicate k '0' ++ l) = decodeBin l := by
  rw [decodeBin_append]
  have h : decodeBin (List.replicate k '0') = 0 := by
    induction k with
    | zero => rfl
    | succ n ih =>
      rw [List.replicate_succ]
      unfold decodeBin at ih ⊢
      simp only [List.foldl_cons, if_neg (by decide : ¬ ('0' : Char) = '1')]
      simpa using ih
  rw [h]
  simp

lemma decodeBin_binDigitsGo : ∀ fuel n : ℕ, n < fuel → decodeBin (binDigitsGo fuel n) = n := by
  intro fuel
  induction fuel with
  | zero => intro n h; omega
  | succ fuel ih =>
    intro n h
    by_cases hn : n < 2
    · unfold binDigitsGo
      rw [if_pos hn]
      interval_cases n
      · rfl
      · rfl
    · unfold binDigitsGo
      rw [if_neg hn, decodeBin_append, ih (n / 2) (by omega)]
      have h3 : decodeBin [if n % 2 = 1 then '1' else '0'] = n % 2 := by
        rcases Nat.mod_two_eq_zero_or_one n with h4 | h4 <;> simp [h4, decodeBin]
      rw [h3]
      simp only [List.length_singleton, pow_one]
      omega

lemma decodeBin_binDigits (n : ℕ) : decodeBin (binDigits n) = n :=
  decodeBin_binDigitsGo (n + 1) n (by omega)

/-- Decoding the binary string of formatBinary recovers the rounded code. -/
lemma decodeBin_formatBinary (a : ℚ) (b : ℕ) :
    ((decodeBin (formatBinary a b) : ℕ) : ℤ) =
      jsRound (clamp01 ((a + 1) / 2) * (2 ^ b - 1)) := by
  have h0 : 0 ≤ jsRound (clamp01 ((a + 1) / 2) * (2 ^ b - 1)) :=
    jsRound_nonneg _ (mul_nonneg (clamp01_nonneg _) (maxVal_nonneg b))
  simp only [formatBinary, padStart]
  rw [decodeBin_replicate_zero, decodeBin_binDigits]
  exact Int.toNat_of_nonneg h0

end BinaryDecode

/-- C4: for every amplitude in the interval from -1 to 1 and every bitDepth
from 1 to 31, the quantizer output is one of exactly 2 ^ bitDepth equally
spaced levels within that interval, and the quantization error is at most
1 / (2 ^ bitDepth - 1). -/
theorem C4_quantize_levels_and_error (a : ℚ) (b : ℕ)
    (ha1 : -1 ≤ a) (ha2 : a ≤ 1) (hb1 : 1 ≤ b) (hb2 : b ≤ 31) :
    (∃ k : ℕ, k < 2 ^ b ∧ quantizeValue a b = quantLevel b k) ∧
    ((Finset.range (2 ^ b)).image (quantLevel b)).card = 2 ^ b ∧
    (∀ k : ℕ, k + 1 < 2 ^ b →
      quantLevel b (k + 1) - quantLevel b k = 2 / (2 ^ b - 1)) ∧
    (∀ k : ℕ, k < 2 ^ b → -1 ≤ quantLevel b k ∧ quantLevel b k ≤ 1) ∧
    |quantizeValue a b - a| ≤ 1 / (2 ^ b - 1) := by
  have hm := maxVal_pos b hb1
  have hne := hm.ne'
  refine ⟨quantizeValue_level a b hb2, ?_, ?_, fun k hk => quantLevel_mem b k hb1 hk, ?_⟩
  · rw [Finset.card_image_of_injOn, Finset.card_range]
    intro x _ y _ hxy
    unfold quantLevel at hxy
    have hq : (x : ℚ) / (2 ^ b - 1) = (y : ℚ) / (2 ^ b - 1) := by linarith
    field_simp at hq
    exact hq
  · intro k hk
    unfold quantLevel
    push_cast
    field_simp
    ring
  · set n : ℚ := (a + 1) / 2 with hn
    have hn0 : 0 ≤ n := by rw [hn]; linarith
    have hn1 : n ≤ 1 := by rw [hn]; linarith
    rw [quantizeValue_eq a b hb2, clamp01_eq_of n hn0 hn1]
    set K : ℤ := jsRound (n * (2 ^ b - 1)) with hK
    have habs : |(K : ℚ) - n * (2 ^ b - 1)| ≤ 1 / 2 := by
      have h := jsRound_abs_sub_le (n * (2 ^ b - 1))
      rw [← hK] at h
      exact h
    have key : (K : ℚ) / (2 ^ b - 1) * 2 - 1 - a =
        2 * (((K : ℚ) - n * (2 ^ b - 1)) / (2 ^ b - 1)) := by
      field_simp [hn]
      ring
    rw [key, abs_mul, abs_div, abs_of_pos hm, abs_two]
    calc 2 * (|(K : ℚ) - n * (2 ^ b - 1)| / (2 ^ b - 1))
        ≤ 2 * ((1 / 2) / (2 ^ b - 1)) := by
          apply mul_le_mul_of_nonneg_left _ (by norm_num)
          exact (div_le_div_iff_of_pos_right hm).mpr habs
    _ = 1 / (2 ^ b - 1) := by ring

/-- Witness for C4 at amplitude 1/3 and bitDepth 2. -/
theorem C4_witness :
    (∃ k : ℕ, k < 2 ^ 2 ∧ quantizeValue (1/3) 2 = quantLevel 2 k) ∧
    ((Finset.range (2 ^ 2)).image (quantLevel 2)).card = 2 ^ 2 ∧
    (∀ k : ℕ, k + 1 < 2 ^ 2 →
      quantLevel 2 (k + 1) - quantLevel 2 k = 2 / (2 ^ 2 - 1)) ∧
    (∀ k : ℕ, k < 2 ^ 2 → -1 ≤ quantLevel 2 k ∧ quantLevel 2 k ≤ 1) ∧
    |quantizeValue (1/3) 2 - 1/3| ≤ 1 / (2 ^ 2 - 1) :=
  C4_quantize_levels_and_error (1/3) 2 (by norm_num) (by norm_num)
    (by norm_num) (by norm_num)

/-- Normalizing commutes with clamping the amplitude to the interval
from -1 to 1. -/
lemma clamp01_normalized_clamp (a : ℚ) :
    clamp01 ((max (-1) (min 1 a) + 1) / 2) = clamp01 ((a + 1) / 2) := by
  rcases le_total a (-1) with h | h
  · rw [min_eq_right (by linarith : a ≤ (1 : ℚ)), max_eq_left h,
      clamp01_of_nonpos ((a + 1) / 2) (by linarith)]
    norm_num [clamp01, min_def, max_def]
  · rcases le_total a 1 with h3 | h3
    · rw [min_eq_right h3, max_eq_right h]
    · rw [min_eq_left h3, (by norm_num : max (-1 : ℚ) 1 = 1),
        clamp01_of_one_le ((a + 1) / 2) (by linarith),
        clamp01_of_one_le _ (by norm_num)]

/-- C5 (amended): for every rational amplitude, including values outside
the interval from -1 to 1, and every bitDepth from 1 to 31, the quantizer
returns a value inside that interval equal to the quantizer applied to the
clamped input; it never rejects an input. At bitDepth 32 the quantizer is
still total but returns the amplitude unchanged, without clamping. -/
theorem C5_amended_quantizer_total_clamped (a : ℚ) (b : ℕ)
    (hb1 : 1 ≤ b) (hb2 : b ≤ 31) :
    (-1 ≤ quantizeValue a b ∧ quantizeValue a b ≤ 1) ∧
    quantizeValue a b = quantizeValue (max (-1) (min 1 a)) b := by
  constructor
  · obtain ⟨k, hk, hq⟩ := quantizeValue_level a b hb2
    rw [hq]
    exact quantLevel_mem b k hb1 hk
  · rw [quantizeValue_eq a b hb2, quantizeValue_eq _ b hb2,
      clamp01_normalized_clamp]

/-- Witness for C5 (amended) at amplitude 5/2 and bitDepth 3. -/
theorem C5_witness :
    (-1 ≤ quantizeValue (5/2) 3 ∧ quantizeValue (5/2) 3 ≤ 1) ∧
    quantizeValue (5/2) 3 = quantizeValue (max (-1) (min 1 (5/2))) 3 :=
  C5_amended_quantizer_total_clamped (5/2) 3 (by norm_num) (by norm_num)

/-- Counterexample to C5 as stated: at bitDepth 32, an out-of-range
amplitude is passed through unchanged, so the result is neither inside
the interval from -1 to 1 nor equal to the quantizer of the clamped input. -/
theorem C5_counterexample :
    ¬ ((-1 ≤ quantizeValue 2 32 ∧ quantizeValue 2 32 ≤ 1) ∧
        quantizeValue 2 32 = quantizeValue (max (-1) (min 1 2)) 32) := by
  have h : quantizeValue 2 32 = 2 := by
    unfold quantizeValue
    rw [if_pos (by norm_num)]
  rintro ⟨⟨_, h2⟩, _⟩
  rw [h] at h2
  norm_num at h2

/-- C6 (amended): for every amplitude and every bitDepth from 1 to 31,
decoding the binary string of formatBinary back to an integer code and
rescaling it onto the interval from -1 to 1 reproduces the quantizer
output exactly. At bitDepth 32 this fails, since formatBinary still
quantizes while quantizeValue passes the amplitude through. -/
theorem C6_amended_binary_roundtrip (a : ℚ) (b : ℕ)
    (hb1 : 1 ≤ b) (hb2 : b ≤ 31) :
    ((decodeBin (formatBinary a b) : ℚ) / (2 ^ b - 1)) * 2 - 1 =
      quantizeValue a b := by
  rw [quantizeValue_eq a b hb2]
  have h2 : ((decodeBin (formatBinary a b) : ℚ)) =
      ((jsRound (clamp01 ((a + 1) / 2) * (2 ^ b - 1)) : ℤ) : ℚ) := by
    exact_mod_cast congrArg (fun z : ℤ => (z : ℚ)) (decodeBin_formatBinary a b)
  rw [h2]

/-- Witness for C6 (amended) at amplitude 1/4 and bitDepth 2. -/
theorem C6_witness :
    ((decodeBin (formatBinary (1/4) 2) : ℚ) / (2 ^ 2 - 1)) * 2 - 1 =
      quantizeValue (1/4) 2 :=
  C6_amended_binary_roundtrip (1/4) 2 (by norm_num) (by norm_num)

/-- Counterexample to C6 as stated over the full contract range of
bitDepth from 1 to 32: at amplitude 0 and bitDepth 32 the decoded and
rescaled code differs from the quantizer output. -/
theorem C6_counterexample :
    ((decodeBin (formatBinary 0 32) : ℚ) / (2 ^ 32 - 1)) * 2 - 1 ≠
      quantizeValue 0 32 := by
  have h2 : ((decodeBin (formatBinary 0 32) : ℚ)) =
      ((jsRound (clamp01 ((0 + 1) / 2) * (2 ^ 32 - 1)) : ℤ) : ℚ) := by
    exact_mod_cast congrArg (fun z : ℤ => (z : ℚ)) (decodeBin_formatBinary 0 32)
  have h3 : clamp01 ((0 + 1) / 2) = 1/2 := by
    norm_num [clamp01, min_def, max_def]
  have h4 : jsRound (1/2 * (2 ^ 32 - 1)) = 2 ^ 31 := by
    unfold jsRound
    norm_num
  have h5 : quantizeValue 0 32 = 0 := by
    unfold quantizeValue
    rw [if_pos (by norm_num)]
  rw [h5, h2, h3, h4]
  push_cast
  norm_num

/-- C7: for every fixed bitDepth from 1 to 32, the quantizer is monotone
in the amplitude. -/
theorem C7_quantize_monotone (b : ℕ) (a1 a2 : ℚ)
    (hb1 : 1 ≤ b) (hb2 : b ≤ 32) (h : a1 < a2) :
    quantizeValue a1 b ≤ quantizeValue a2 b := by
  rcases le_or_lt 32 b with h32 | h32
  · unfold quantizeValue
    rw [if_pos h32, if_pos h32]
    exact h.le
  · have hb31 : b ≤ 31 := by omega
    rw [quantizeValue_eq a1 b hb31, quantizeValue_eq a2 b hb31]
    have hm := maxVal_pos b hb1
    have hx : clamp01 ((a1 + 1) / 2) * (2 ^ b - 1) ≤
        clamp01 ((a2 + 1) / 2) * (2 ^ b - 1) :=
      mul_le_mul_of_nonneg_right (clamp01_mono (by linarith)) hm.le
    have hr : (jsRound (clamp01 ((a1 + 1) / 2) * (2 ^ b - 1)) : ℚ) ≤
        (jsRound (clamp01 ((a2 + 1) / 2) * (2 ^ b - 1)) : ℚ) := by
      exact_mod_cast jsRound_mono hx
    have hd := (div_le_div_iff_of_pos_right hm).mpr hr
    linarith

/-- Witness for C7 at bitDepth 3 with amplitudes 0 and 1/2. -/
theorem C7_witness : quantizeValue 0 3 ≤ quantizeValue (1/2) 3 :=
  C7_quantize_monotone 3 0 (1/2) (by norm_num) (by norm_num) (by norm_num)

/-- Quantization levels are fixed points of the quantizer. -/
lemma quantizeValue_quantLevel (b k : ℕ) (hb1 : 1 ≤ b) (hb2 : b ≤ 31)
    (hk : k < 2 ^ b) :
    quantizeValue (quantLevel b k) b = quantLevel b k := by
  have hm := maxVal_pos b hb1
  have hku : (k : ℚ) ≤ 2 ^ b - 1 := by
    have h : (k : ℚ) + 1 ≤ 2 ^ b := by exact_mod_cast Nat.succ_le_of_lt hk
    linarith
  rw [quantizeValue_eq _ b hb2]
  have h1 : (quantLevel b k + 1) / 2 = (k : ℚ) / (2 ^ b - 1) := by
    unfold quantLevel
    ring
  rw [h1, clamp01_eq_of _ (by positivity) ((div_le_one hm).mpr hku),
    div_mul_cancel₀ _ hm.ne', jsRound_natCast]
  unfold quantLevel
  norm_num

/-- C8: quantization is idempotent for every amplitude and every bitDepth
from 1 to 32. -/
theorem C8_quantize_idempotent (a : ℚ) (b : ℕ) (hb1 : 1 ≤ b) (hb2 : b ≤ 32) :
    quantizeValue (quantizeValue a b) b = quantizeValue a b := by
  rcases le_or_lt 32 b with h32 | h32
  · have hid : ∀ x : ℚ, quantizeValue x b = x := fun x => by
      unfold quantizeValue
      rw [if_pos h32]
    rw [hid, hid]
  · have hb31 : b ≤ 31 := by omega
    obtain ⟨k, hk, hq⟩ := quantizeValue_level a b hb31
    rw [hq, quantizeValue_quantLevel b k hb1 hb31 hk]

/-- Witness for C8 at amplitude 2/5 and bitDepth 3. -/
theorem C8_witness :
    quantizeValue (quantizeValue (2/5) 3) 3 = quantizeValue (2/5) 3 :=
  C8_quantize_idempotent (2/5) 3 (by norm_num) (by norm_num)

/-- C9: at bitDepth 32 and above, the quantizer returns its input
unchanged. -/
theorem C9_quantize_identity_at_ceiling (a : ℚ) (b : ℕ) (hb : 32 ≤ b) :
    quantizeValue a b = a := by
  unfold quantizeValue
  rw [if_pos hb]

/-- Witness for C9 at amplitude 7/3 and bitDepth 32. -/
theorem C9_witness : quantizeValue (7/3) 32 = 7/3 :=
  C9_quantize_identity_at_ceiling (7/3) 32 (by norm_num)

/-- C10: for every bitDepth from 1 to 31, the full-scale amplitudes -1
and 1 are fixed points of the quantizer. -/
theorem C10_full_scale_fixed_points (b : ℕ) (hb1 : 1 ≤ b) (hb2 : b ≤ 31) :
    quantizeValue (-1) b = -1 ∧ quantizeValue 1 b = 1 := by
  have hm := maxVal_pos b hb1
  constructor
  · rw [quantizeValue_eq _ b hb2]
    have h1 : clamp01 ((-1 + 1) / 2) = 0 := by
      norm_num [clamp01, min_def, max_def]
    rw [h1, zero_mul, (by norm_num : (0 : ℚ) = ((0 : ℤ) : ℚ)), jsRound_intCast]
    norm_num
  · rw [quantizeValue_eq _ b hb2]
    have h1 : clamp01 ((1 + 1) / 2) = 1 := by
      norm_num [clamp01, min_def, max_def]
    have h2 : jsRound ((2 : ℚ) ^ b - 1) = (2 : ℤ) ^ b - 1 := by
      rw [(by push_cast; ring : ((2 : ℚ) ^ b - 1) = (((2 : ℤ) ^ b - 1 : ℤ) : ℚ)),
        jsRound_intCast]
    rw [h1, one_mul, h2]
    have h3 : (((2 : ℤ) ^ b - 1 : ℤ) : ℚ) = (2 : ℚ) ^ b - 1 := by
      push_cast
      ring
    rw [h3, div_self hm.ne']
    ring

/-- Witness for C10 at bitDepth 4. -/
theorem C10_witness : quantizeValue (-1) 4 = -1 ∧ quantizeValue 1 4 = 1 :=
  C10_full_scale_fixed_points 4 (by norm_num) (by norm_num)

/-- The visible window: Math.floor(data.length / zoom) samples from the
start of the buffer. -/
def windowSizeOf (len : ℕ) (zoom : ℚ) : ℕ := (⌊(len : ℚ) / zoom⌋).toNat

/-- The stride of the continuous reference curve in WaveformCanvas:
Math.max(1, Math.floor(windowSize / 2000)). -/
def referenceStride (len : ℕ) (zoom : ℚ) : ℕ :=
  max 1 (windowSizeOf len zoom / 2000)

/-- The sampling stride in WaveformCanvas:
Math.max(1, realRate / sampleRateCtx), with no rounding. -/
def samplingStride (realRate sampleRateCtx : ℚ) : ℚ :=
  max 1 (realRate / sampleRateCtx)

/-- The shared amplitude-to-vertical-position transform of WaveformCanvas:
height / 2 - amp * height / 2. -/
def ampToY (height amp : ℚ) : ℚ := height / 2 - amp * height / 2

/-- The positions computed by the four drawing layers of WaveformCanvas:
points of the analog polyline, heights of the quantization grid lines,
dot positions of the sampling layer, hold segments (x, nextX, y) of the
quantization layer, and vertical segments (x, originalY, y) of the error
layer. A disabled layer draws nothing. -/
structure RenderOutput where
  analog : List (ℚ × ℚ)
  grid : List ℚ
  sampling : List (ℚ × ℚ)
  hold : List (ℚ × ℚ × ℚ)
  error : List (ℚ × ℚ × ℚ)
deriving DecidableEq

/-- The per-frame drawing pass of WaveformCanvas, recording every
computed position. The sampling loop runs `for (let i = 0; i < windowSize;
i += skip)` with a break once the floored index leaves the buffer; its
iterates are k * skip for k below windowSize (skip is at least 1), kept
while they pass the loop condition and the bounds check. -/
def renderLayers (data : List ℚ) (realRate sampleRateCtx zoom : ℚ)
    (bitDepth : ℕ) (showAnalog showSampling showQuantization showError : Bool)
    (width height : ℚ) : RenderOutput :=
  let windowSize : ℕ := windowSizeOf data.length zoom
  let sliceWidth : ℚ := width * 1 / (windowSize : ℚ)
  let analog : List (ℚ × ℚ) :=
    if showAnalog then
      let drawStep : ℕ := referenceStride data.length zoom
      (List.range windowSize).filterMap (fun k =>
        let i := k * drawStep
        if i < windowSize ∧ i < data.length then
          some ((k : ℚ) * (sliceWidth * (drawStep : ℚ)),
            ampToY height (data.getD i 0))
        else none)
    else []
  let grid : List ℚ :=
    if showQuantization ∧ bitDepth ≤ 5 then
      (List.range (2 ^ bitDepth + 1)).map
        (fun i => height - ((i : ℚ) / (2 ^ bitDepth : ℚ)) * height)
    else []
  let skip : ℚ := samplingStride realRate sampleRateCtx
  let visited : List (ℚ × ℚ × ℚ × ℚ) :=
    if showSampling || showQuantization then
      (List.range windowSize).filterMap (fun k =>
        let t : ℚ := (k : ℚ) * skip
        let idx : ℕ := (⌊t⌋).toNat
        if t < (windowSize : ℚ) ∧ idx < data.length then
          let originalVal := data.getD idx 0
          let finalVal :=
            if showQuantization then quantizeValue originalVal bitDepth
            else originalVal
          some (t * sliceWidth, ampToY height finalVal,
            ampToY height originalVal, min width ((t + skip) * sliceWidth))
        else none)
    else []
  { analog := analog
    grid := grid
    sampling := if showSampling then visited.map (fun p => (p.1, p.2.1)) else []
    hold := if showQuantization then
        visited.map (fun p => (p.1, p.2.2.2, p.2.1))
      else []
    error := if showError then
        visited.map (fun p => (p.1, p.2.2.1, p.2.1))
      else [] }

/-- Row i of the encoding preview table in App: stride
Math.max(1, Math.floor(realRate / sampleRateCtx)), index i * stride, and
per row the index, the time index / realRate, the original amplitude and
the quantized amplitude; none once the index leaves the buffer. -/
def tableRow (data : List ℚ) (realRate sampleRateCtx : ℚ) (bitDepth : ℕ)
    (i : ℕ) : Option (ℕ × ℚ × ℚ × ℚ) :=
  let skip : ℕ := max 1 (⌊realRate / sampleRateCtx⌋).toNat
  let idx : ℕ := i * skip
  if idx < data.length then
    let val := data.getD idx 0
    some (idx, (idx : ℚ) / realRate, val, quantizeValue val bitDepth)
  else none

/-- The i-th point visited by the sampling layer of WaveformCanvas, with
the same derived quantities as the preview table: the floored sample
index, its time index / realRate, the original amplitude and the
quantized amplitude; none once the loop condition or the bounds check
fails. -/
def samplingPointR (data : List ℚ) (realRate sampleRateCtx zoom : ℚ)
    (bitDepth : ℕ) (i : ℕ) : Option (ℕ × ℚ × ℚ × ℚ) :=
  let windowSize : ℕ := windowSizeOf data.length zoom
  let skip : ℚ := samplingStride realRate sampleRateCtx
  let t : ℚ := (i : ℚ) * skip
  let idx : ℕ := (⌊t⌋).toNat
  if t < (windowSize : ℚ) ∧ idx < data.length then
    let val := data.getD idx 0
    some (idx, (idx : ℚ) / realRate, val, quantizeValue val bitDepth)
  else none

/-- C3 (amended): when the visible window has fewer than 4000 samples,
the reference stride is 1 and is therefore at most the sampling stride.
Without that bound the inequality fails, see the counterexample. -/
theorem C3_amended_reference_stride_le (len : ℕ) (zoom realRate sampleRateCtx : ℚ)
    (hzoom : 1 ≤ zoom) (hrr : 0 < realRate) (hsrc : 0 < sampleRateCtx)
    (hwin : windowSizeOf len zoom < 4000) :
    (referenceStride len zoom : ℚ) ≤ samplingStride realRate sampleRateCtx := by
  have h1 : referenceStride len zoom = 1 := by
    unfold referenceStride
    have h2 : windowSizeOf len zoom / 2000 ≤ 1 := by omega
    omega
  rw [h1]
  exact_mod_cast le_max_left 1 (realRate / sampleRateCtx)

/-- Witness for C3 (amended) with a 1000-sample buffer at zoom 1. -/
theorem C3_witness :
    (referenceStride 1000 1 : ℚ) ≤ samplingStride 44100 44100 :=
  C3_amended_reference_stride_le 1000 1 44100 44100 (by norm_num) (by norm_num)
    (by norm_num) (by norm_num [windowSizeOf])

/-- Counterexample to C3 as stated: a 44100-sample buffer at zoom 1 with
equal native and target rates gives reference stride 22 but sampling
stride 1. -/
theorem C3_counterexample :
    ¬ ((referenceStride 44100 1 : ℚ) ≤ samplingStride 44100 44100) := by
  have h1 : referenceStride 44100 1 = 22 := by
    norm_num [referenceStride, windowSizeOf]
    rfl
  have h2 : samplingStride 44100 44100 = 1 := by norm_num [samplingStride]
  rw [h1, h2]
  norm_num

/-- When the sampling stride is a whole number, the floored table stride
of App equals it. -/
lemma tableSkip_eq (realRate sampleRateCtx : ℚ) (n : ℕ)
    (hn : max 1 (realRate / sampleRateCtx) = (n : ℚ)) :
    max 1 (⌊realRate / sampleRateCtx⌋).toNat = n := by
  rcases le_total (realRate / sampleRateCtx) 1 with h | h
  · have h1 : max 1 (realRate / sampleRateCtx) = 1 := max_eq_left h
    have hn1 : n = 1 := by
      rw [h1] at hn
      exact_mod_cast hn.symm
    have hf : ⌊realRate / sampleRateCtx⌋ ≤ 1 := by
      have h2 := Int.floor_le_floor h
      rwa [Int.floor_one] at h2
    have hf2 : (⌊realRate / sampleRateCtx⌋).toNat ≤ 1 := by omega
    rw [hn1]
    exact max_eq_left hf2
  · have h1 : max 1 (realRate / sampleRateCtx) = realRate / sampleRateCtx :=
      max_eq_right h
    have hr : realRate / sampleRateCtx = (n : ℚ) := by rw [← h1, hn]
    have hn1 : 1 ≤ n := by
      have h2 : (1 : ℚ) ≤ (n : ℚ) := by rw [← hr]; exact h
      exact_mod_cast h2
    rw [hr, Int.floor_natCast]
    have h3 : ((n : ℤ)).toNat = n := by omega
    rw [h3]
    exact max_eq_right hn1

/-- When the sampling stride is a whole number, the floored index of the
i-th renderer sampling point is i times that stride. -/
lemma rendererIdx_eq (realRate sampleRateCtx : ℚ) (n i : ℕ)
    (hn : max 1 (realRate / sampleRateCtx) = (n : ℚ)) :
    (⌊(i : ℚ) * max 1 (realRate / sampleRateCtx)⌋).toNat = i * n := by
  rw [hn, (by push_cast; ring : ((i : ℚ) * (n : ℚ)) = ((i * n : ℕ) : ℚ)),
    Int.floor_natCast]
  omega

/-- C1 (amended): whenever the renderer sampling stride
max(1, nativeSampleRate / targetSampleRate) is a whole number, the i-th
preview-table row and the i-th point of the renderer sampling layer agree
exactly on sample index, time, original amplitude and quantized amplitude
whenever both are defined. With a fractional stride they disagree, see
the counterexample. -/
theorem C1_amended_table_chart_agree (data : List ℚ)
    (realRate sampleRateCtx zoom : ℚ) (bitDepth i n : ℕ)
    (hn : max 1 (realRate / sampleRateCtx) = (n : ℚ))
    (r p : ℕ × ℚ × ℚ × ℚ)
    (hr : tableRow data realRate sampleRateCtx bitDepth i = some r)
    (hp : samplingPointR data realRate sampleRateCtx zoom bitDepth i = some p) :
    r = p := by
  have hA := tableSkip_eq realRate sampleRateCtx n hn
  have hB := rendererIdx_eq realRate sampleRateCtx n i hn
  simp only [tableRow] at hr
  simp only [samplingPointR, samplingStride] at hp
  rw [hA] at hr
  rw [hB] at hp
  split at hr
  · split at hp
    · rw [Option.some_inj] at hr hp
      rw [← hr, ← hp]
    · simp at hp
  · simp at hr

/-- Witness for C1 (amended): an integer stride of 10 with a 20-sample
buffer, where row 1 and point 1 both land on sample index 10. -/
theorem C1_witness :
    max 1 ((44100 : ℚ) / 4410) = ((10 : ℕ) : ℚ) ∧
    (((10, 10/44100, 0, quantizeValue 0 4) : ℕ × ℚ × ℚ × ℚ) =
      (10, 10/44100, 0, quantizeValue 0 4)) := by
  refine ⟨by norm_num, ?_⟩
  refine C1_amended_table_chart_agree (List.replicate 20 0) 44100 4410 1 4 1 10
    (by norm_num) _ _ ?_ ?_
  · simp only [tableRow, List.length_replicate]
    have hfn : (⌊(44100 : ℚ) / 4410⌋).toNat = 10 := by
      have hf : (⌊(44100 : ℚ) / 4410⌋) = 10 := by norm_num
      omega
    rw [hfn]
    norm_num [List.getD]
  · simp only [samplingPointR, samplingStride, windowSizeOf, List.length_replicate]
    have hs : max 1 ((44100 : ℚ) / 4410) = 10 := by norm_num
    rw [hs]
    have hfn : (⌊((1 : ℕ) : ℚ) * 10⌋).toNat = 10 := by
      have hf : (⌊((1 : ℕ) : ℚ) * 10⌋) = 10 := by push_cast; norm_num
      omega
    have hwn : (⌊((20 : ℕ) : ℚ) / 1⌋).toNat = 20 := by
      have hw : (⌊((20 : ℕ) : ℚ) / 1⌋) = 20 := by push_cast; norm_num
      omega
    rw [hfn, hwn]
    norm_num [List.getD]

/-- Counterexample to C1 as stated: with nativeSampleRate 44100 and
targetSampleRate 5000 the stride ratio is 8.82; row 2 of the table uses
sample index 2 * 8 = 16 while point 2 of the sampling layer uses
floor(2 * 8.82) = 17. -/
theorem C1_counterexample :
    tableRow (List.replicate 18 0) 44100 5000 4 2 ≠
      samplingPointR (List.replicate 18 0) 44100 5000 1 4 2 := by
  have h1 : tableRow (List.replicate 18 0) 44100 5000 4 2 =
      some (16, 16/44100, 0, quantizeValue 0 4) := by
    simp only [tableRow, List.length_replicate]
    have hfn : (⌊(44100 : ℚ) / 5000⌋).toNat = 8 := by
      have hf : (⌊(44100 : ℚ) / 5000⌋) = 8 := by norm_num
      omega
    rw [hfn]
    norm_num [List.getD]
  have h2 : samplingPointR (List.replicate 18 0) 44100 5000 1 4 2 =
      some (17, 17/44100, 0, quantizeValue 0 4) := by
    simp only [samplingPointR, samplingStride, windowSizeOf, List.length_replicate]
    have hs : max 1 ((44100 : ℚ) / 5000) = 441/50 := by norm_num
    rw [hs]
    have hfn : (⌊((2 : ℕ) : ℚ) * (441/50)⌋).toNat = 17 := by
      have hf : (⌊((2 : ℕ) : ℚ) * (441/50)⌋) = 17 := by push_cast; norm_num
      omega
    have hwn : (⌊((18 : ℕ) : ℚ) / 1⌋).toNat = 18 := by
      have hw : (⌊((18 : ℕ) : ℚ) / 1⌋) = 18 := by push_cast; norm_num
      omega
    rw [hfn, hwn]
    norm_num [List.getD]
  rw [h1, h2]
  simp only [ne_eq, Option.some.injEq, Prod.mk.injEq]
  intro h
  exact absurd h.1 (by norm_num)

/-- C2 (amended): toggling showAnalog or showError never changes the
positions computed by the other layers, and with showQuantization enabled
the same holds for showSampling. Toggling showQuantization, however,
changes the sampling and error layer vertical positions by design, since
the sampling loop quantizes its amplitudes exactly when showQuantization
is on; see the counterexample. -/
theorem C2_amended_toggle_independence (data : List ℚ)
    (realRate sampleRateCtx zoom : ℚ) (bitDepth : ℕ)
    (sa sa' ss ss' sq se se' : Bool) (width height : ℚ) :
    ((renderLayers data realRate sampleRateCtx zoom bitDepth sa ss sq se width height).grid =
        (renderLayers data realRate sampleRateCtx zoom bitDepth sa' ss sq se width height).grid ∧
      (renderLayers data realRate sampleRateCtx zoom bitDepth sa ss sq se width height).sampling =
        (renderLayers data realRate sampleRateCtx zoom bitDepth sa' ss sq se width height).sampling ∧
      (renderLayers data realRate sampleRateCtx zoom bitDepth sa ss sq se width height).hold =
        (renderLayers data realRate sampleRateCtx zoom bitDepth sa' ss sq se width height).hold ∧
      (renderLayers data realRate sampleRateCtx zoom bitDepth sa ss sq se width height).error =
        (renderLayers data realRate sampleRateCtx zoom bitDepth sa' ss sq se width height).error) ∧
    ((renderLayers data realRate sampleRateCtx zoom bitDepth sa ss sq se width height).analog =
        (renderLayers data realRate sampleRateCtx zoom bitDepth sa ss sq se' width height).analog ∧
      (renderLayers data realRate sampleRateCtx zoom bitDepth sa ss sq se width height).grid =
        (renderLayers data realRate sampleRateCtx zoom bitDepth sa ss sq se' width height).grid ∧
      (renderLayers data realRate sampleRateCtx zoom bitDepth sa ss sq se width height).sampling =
        (renderLayers data realRate sampleRateCtx zoom bitDepth sa ss sq se' width height).sampling ∧
      (renderLayers data realRate sampleRateCtx zoom bitDepth sa ss sq se width height).hold =
        (renderLayers data realRate sampleRateCtx zoom bitDepth sa ss sq se' width height).hold) ∧
    ((renderLayers data realRate sampleRateCtx zoom bitDepth sa ss true se width height).analog =
        (renderLayers data realRate sampleRateCtx zoom bitDepth sa ss' true se width height).analog ∧
      (renderLayers data realRate sampleRateCtx zoom bitDepth sa ss true se width height).grid =
        (renderLayers data realRate sampleRateCtx zoom bitDepth sa ss' true se width height).grid ∧
      (renderLayers data realRate sampleRateCtx zoom bitDepth sa ss true se width height).hold =
        (renderLayers data realRate sampleRateCtx zoom bitDepth sa ss' true se width height).hold ∧
      (renderLayers data realRate sampleRateCtx zoom bitDepth sa ss true se width height).error =
        (renderLayers data realRate sampleRateCtx zoom bitDepth sa ss' true se width height).error) := by
  refine ⟨⟨rfl, rfl, rfl, rfl⟩, ⟨rfl, rfl, rfl, rfl⟩, ?_⟩
  cases ss <;> cases ss' <;> exact ⟨rfl, rfl, rfl, rfl⟩

/-- Counterexample to C2 as stated: with a one-sample buffer at amplitude
3/10 and bitDepth 1, toggling showQuantization moves the sampling layer
dot from y = 0 (quantized amplitude 1) to y = 140 (raw amplitude 3/10). -/
theorem C2_counterexample :
    (renderLayers [3/10] 100 100 1 1 true true true false 800 400).sampling ≠
      (renderLayers [3/10] 100 100 1 1 true true false false 800 400).sampling := by
  have hq : quantizeValue (3/10) 1 = 1 := by
    rw [quantizeValue_eq _ 1 (by norm_num)]
    rw [show clamp01 ((3/10 + 1)/2) = 13/20 by norm_num [clamp01, min_def, max_def]]
    rw [show jsRound (13/20 * ((2:ℚ)^1 - 1)) = 1 by unfold jsRound; norm_num]
    norm_num
  have hs : max 1 ((100:ℚ)/100) = 1 := by norm_num
  have hw : (⌊((1:ℕ):ℚ)/1⌋).toNat = 1 := by
    have h3 : (⌊((1:ℕ):ℚ)/1⌋) = 1 := by push_cast; norm_num
    omega
  have h1 : (renderLayers [3/10] 100 100 1 1 true true true false 800 400).sampling =
      [((0:ℚ), (0:ℚ))] := by
    simp only [renderLayers, samplingStride, windowSizeOf, List.length_cons,
      List.length_nil, hs, hw]
    simp [List.filterMap_cons, show List.range 1 = [0] from rfl, hq, ampToY]
  have h2 : (renderLayers [3/10] 100 100 1 1 true true false false 800 400).sampling =
      [((0:ℚ), (140:ℚ))] := by
    simp only [renderLayers, samplingStride, windowSizeOf, List.length_cons,
      List.length_nil, hs, hw]
    simp [List.filterMap_cons, show List.range 1 = [0] from rfl, ampToY]
    norm_num
  rw [h1, h2]
  simp only [ne_eq, List.cons.injEq, Prod.mk.injEq]
  intro h
  exact absurd h.1.2 (by norm_num)
